import Mathlib

/-!
Verification development for the `ControlCollection` component
(`src/index.js` of digitaledgeit/js-control-collection).

The component tracks an ordered list of opaque "control" objects and
aggregates their values, validity and events.  We give a shallow
embedding of the data model:

* a JS control object is modelled by `Control`; the `id` field models the
  object's reference identity (JS `===`), the remaining fields the
  capability state the collection reads (`getName`, `getValue`,
  `isValid`, and the payload its `validate` completion reports);
* a JS plain object used as a string-keyed map is modelled by `Obj`, an
  association list with JS property-assignment semantics (`objSet`:
  assignment to an existing key overwrites in place, otherwise the key
  is appended; `objLookup`: property read);
* the collection itself is `ControlCollection`: its `name`, its ordered
  `controls` array, and the `subscriptions` made through
  `forward(control, this, proxyEvent)` in `append`/`prepend`;
* effectful methods return the effect explicitly: `focus` returns
  `Option` (`none` models the TypeError raised on an empty collection),
  `setValue` is accompanied by the trace of `control.setValue` calls it
  performs, and `validate` is split into its synchronous scatter
  (`ControlCollection.validate`, an action trace plus the returned
  collection) and the gather barrier machine (`gatherInit`/`gatherStep`)
  driven by the arrival order of per-control completion signals.
-/

/-- Value type of a control, standing in for arbitrary JS values. -/
abbrev Value := Int

/-- A control object as seen by the collection: `id` models JS reference
identity, `name`/`value`/`valid` the state returned by `getName`,
`getValue`, `isValid` and reported by its `validate` completion. -/
structure Control where
  id : Nat
  name : String
  value : Value
  valid : Bool
deriving DecidableEq, Repr

/-- JS strict equality (`===`) on control objects: reference identity. -/
def controlEq (a b : Control) : Bool :=
  a.id == b.id

/-- A JS plain object used as a string-keyed map. -/
abbrev Obj := List (String × Value)

/-- JS property assignment `o[k] = v`: overwrite in place if the key is
present, otherwise append the key. -/
def objSet : Obj → String → Value → Obj
  | [], k, v => [(k, v)]
  | (k', v') :: rest, k, v =>
    if k' = k then (k, v) :: rest else (k', v') :: objSet rest k v

/-- JS property read `o[k]` (with `hasOwnProperty` as `isSome`). -/
def objLookup : Obj → String → Option Value
  | [], _ => none
  | (k', v') :: rest, k => if k' = k then some v' else objLookup rest k

/-- An argument carried by an event callback. -/
inductive EvArg where
  | ctrl (c : Control)
  | int (n : Int)
  | str (s : String)
  | bool (b : Bool)
deriving DecidableEq, Repr

/-- An emitted event: its type string and its callback arguments. -/
structure Event where
  type : String
  arguments : List EvArg
deriving DecidableEq, Repr

/-- `proxyEvent` (src/index.js lines 5-12): adjust the event name with the
prefix string and prepend the emitting control to the arguments. -/
def proxyEvent (type : String) (args : List EvArg) (src : Control) : Event :=
  { type := "control:" ++ type, arguments := EvArg.ctrl src :: args }

/-- The collection: its `name`, its ordered `controls` array, and the
event-forwarding `subscriptions` established by `append`/`prepend`
(`forward(control, this, proxyEvent)`); `remove` never unsubscribes. -/
structure ControlCollection where
  name : String
  controls : List Control
  subscriptions : List Control
deriving DecidableEq, Repr

namespace ControlCollection

/-- The constructor `ControlCollection(options)`: name from
`options && options.name || ''`, controls start empty. -/
def make (nameOpt : Option String) : ControlCollection :=
  { name := nameOpt.getD "", controls := [], subscriptions := [] }

/-- `getName()`. -/
def getName (coll : ControlCollection) : String :=
  coll.name

/-- `getValue()`: build a fresh object, assigning each control's value
under its name, iterating the controls in order. -/
def getValue (coll : ControlCollection) : Obj :=
  coll.controls.foldl (fun value control => objSet value control.name control.value) []

/-- The body of the `setValue(value)` loop: processes the controls in
order; returns the updated controls and the trace of
`control.setValue(entry)` calls performed. -/
def setValueAux : List Control → Obj → List Control × List (Control × Value)
  | [], _ => ([], [])
  | c :: rest, m =>
    let r := setValueAux rest m
    match objLookup m c.name with
    | some v => ({ c with value := v } :: r.1, (c, v) :: r.2)
    | none => (c :: r.1, r.2)

/-- `setValue(value)`: for each control whose name is a property of the
map, call `setValue` on it with that property's value. -/
def setValue (coll : ControlCollection) (m : Obj) : ControlCollection :=
  { coll with controls := (setValueAux coll.controls m).1 }

/-- The trace of `control.setValue` calls performed by `setValue(m)`,
in loop order, each with the argument passed. -/
def setValueCalls (coll : ControlCollection) (m : Obj) : List (Control × Value) :=
  (setValueAux coll.controls m).2

/-- The `isValid()` accumulation loop: `valid = valid && control.isValid()`. -/
def isValidAux : List Control → Bool → Bool
  | [], valid => valid
  | c :: rest, valid => isValidAux rest (valid && c.valid)

/-- `isValid()`: AND of the members' last computed validity. -/
def isValid (coll : ControlCollection) : Bool :=
  isValidAux coll.controls true

/-- `count()`. -/
def count (coll : ControlCollection) : Nat :=
  coll.controls.length

/-- `indexOf(control)`: JS `Array.prototype.indexOf` with `===`,
returning `-1` when absent. -/
def indexOf (coll : ControlCollection) (control : Control) : Int :=
  match coll.controls.findIdx? (fun x => controlEq x control) with
  | some i => (i : Int)
  | none => -1

/-- `contains(control)`: `indexOf(control) !== -1`. -/
def contains (coll : ControlCollection) (control : Control) : Bool :=
  coll.indexOf control != -1

/-- `at(index)`: `this.controls[index]`, `undefined` (modelled `none`)
out of range; JS array reads at negative indices are `undefined`. -/
def atIdx (coll : ControlCollection) (index : Int) : Option Control :=
  if index < 0 then none else coll.controls.get? index.toNat

/-- `first()`: `this.controls[0]`. -/
def first (coll : ControlCollection) : Option Control :=
  coll.controls.get? 0

/-- `last()`: `this.controls[this.controls.length-1]`. -/
def last (coll : ControlCollection) : Option Control :=
  coll.controls.get? (coll.controls.length - 1)

/-- The `named(name)` search loop: first control whose `getName()`
equals the name, else `null` (modelled `none`). -/
def namedAux : List Control → String → Option Control
  | [], _ => none
  | c :: rest, n => if c.name = n then some c else namedAux rest n

/-- `named(name)`. -/
def named (coll : ControlCollection) (n : String) : Option Control :=
  namedAux coll.controls n

/-- `focus()`: calls `this.first().focus()` and returns `this`.  On an
empty collection `first()` is `undefined` and the call is a TypeError,
modelled as `none`; otherwise the focused control and the returned
collection. -/
def focus (coll : ControlCollection) : Option (Control × ControlCollection) :=
  (coll.first).map (fun c => (c, coll))

/-- `prepend(control)`: `unshift` onto the array, then
`forward(control, this, proxyEvent)`. -/
def prepend (coll : ControlCollection) (control : Control) : ControlCollection :=
  { coll with
    controls := control :: coll.controls,
    subscriptions := coll.subscriptions ++ [control] }

/-- `append(control)`: `push` onto the array, then
`forward(control, this, proxyEvent)`. -/
def append (coll : ControlCollection) (control : Control) : ControlCollection :=
  { coll with
    controls := coll.controls ++ [control],
    subscriptions := coll.subscriptions ++ [control] }

/-- `remove(control)`: find `indexOf(control)`; if not `-1`, `splice` one
element out at that index; returns `this`. -/
def remove (coll : ControlCollection) (control : Control) : ControlCollection :=
  let index := coll.indexOf control
  if index != -1 then
    { coll with controls := coll.controls.eraseIdx index.toNat }
  else
    coll

/-- The events the collection emits when a control `c` fires an event of
the given type with the given arguments: one proxied re-emission per
forwarding subscription on `c` (the `forward-events` dependency re-emits
each of the source's events on the destination through the proxy
function, here `proxyEvent`). -/
def emitFromControl (coll : ControlCollection) (c : Control) (type : String)
    (args : List EvArg) : List Event :=
  coll.subscriptions.filterMap
    (fun s => if controlEq s c then some (proxyEvent type args c) else none)

end ControlCollection

/-- A side effect performed on the collection by the gather barrier when
it fires: setting the cached `valid` flag, or emitting the collection's
own `validate` completion signal with its two payloads. -/
inductive BarrierAction where
  | setValid (b : Bool)
  | emit (b : Bool) (m : Obj)
deriving DecidableEq, Repr

/-- State of one `validate()` gather cycle: the number of controls whose
`validate` completion has not yet arrived, the accumulated AND of the
validity booleans seen so far (`collectionIsValid`), the accumulated
name-to-value object (`collectionValue`), and the trace of barrier side
effects performed so far. -/
structure GatherState where
  pending : Nat
  accValid : Bool
  accValue : Obj
  trace : List BarrierAction
deriving DecidableEq, Repr

/-- Fire the barrier when no completion is pending: set `self.valid` to
the accumulated AND, then emit `validate` with
`(collectionIsValid, collectionValue)`.  Modelled from the spec: the
counting/firing discipline lives in the `wait-for-event` dependency
(`wait.waitForAll`), which is not under `src/`; the spec's barrier step
says the gather fires once when completions have been observed for all
N controls, immediately for N = 0. -/
def fireIfDone (s : GatherState) : GatherState :=
  if s.pending = 0 then
    { s with trace := s.trace ++ [BarrierAction.setValid s.accValid,
                                  BarrierAction.emit s.accValid s.accValue] }
  else
    s

/-- The gather registered by `validate()` before scattering: waits on one
completion per control (so for an empty collection it is already done
and fires at once). -/
def gatherInit (controls : List Control) : GatherState :=
  fireIfDone { pending := controls.length, accValid := true, accValue := [], trace := [] }

/-- Arrival of control `c`'s `validate` completion signal, reporting
`(c.valid, c.value)`: the each-callback from src/index.js accumulates
`collectionIsValid = collectionIsValid && controlIsValid` and
`collectionValue[control.getName()] = controlValue`; one fewer
completion is pending, and the barrier fires if that was the last. -/
def gatherStep (s : GatherState) (c : Control) : GatherState :=
  fireIfDone
    { s with
      pending := s.pending - 1,
      accValid := s.accValid && c.valid,
      accValue := objSet s.accValue c.name c.value }

/-- A whole gather cycle for the given collection members, with the
per-control completion signals arriving in the given order. -/
def gatherRun (controls arrivals : List Control) : GatherState :=
  arrivals.foldl gatherStep (gatherInit controls)

/-- A synchronous action performed by the body of `validate()`. -/
inductive ValidateAction where
  | registerGather
  | dispatch (c : Control)
deriving DecidableEq, Repr

/-- The scatter loop of `validate()`:
`for (...) this.controls[i].validate()`. -/
def scatterLoop : List Control → List ValidateAction
  | [] => []
  | c :: rest => ValidateAction.dispatch c :: scatterLoop rest

/-- The synchronous part of `ControlCollection.prototype.validate`: first
`wait.waitForAll(...)` registers the gather, then the loop dispatches
`validate()` on each control with nothing in between, then `return this`.
Returns the action trace and the value returned to the caller. -/
def ControlCollection.validate (coll : ControlCollection) :
    List ValidateAction × ControlCollection :=
  (ValidateAction.registerGather :: scatterLoop coll.controls, coll)

/-- One mutating list operation on the collection. -/
inductive Op where
  | append (c : Control)
  | prepend (c : Control)
  | remove (c : Control)
deriving DecidableEq, Repr

/-- Apply one operation, as implemented by src/index.js. -/
def applyOp (coll : ControlCollection) : Op → ControlCollection
  | Op.append c => coll.append c
  | Op.prepend c => coll.prepend c
  | Op.remove c => coll.remove c

/-- Remove the first occurrence by identity, if any (the spec's wording
for `remove`). -/
def removeFirstById : List Control → Control → List Control
  | [], _ => []
  | x :: rest, c => if controlEq x c then rest else x :: removeFirstById rest c

/-- Modelled from the spec: the order of controls implied by a sequence
of operations — `append` at tail, `prepend` at head, `remove` deletes
the first occurrence by identity and is a no-op when absent. -/
def specStep (l : List Control) : Op → List Control
  | Op.append c => l ++ [c]
  | Op.prepend c => c :: l
  | Op.remove c => removeFirstById l c

/-! ### Lemmas about JS object maps -/

theorem objLookup_objSet (m : Obj) (k : String) (v : Value) (n : String) :
    objLookup (objSet m k v) n = if n = k then some v else objLookup m n := by
  induction m with
  | nil =>
    simp only [objSet, objLookup]
    by_cases h : k = n
    · rw [if_pos h, if_pos h.symm]
    · rw [if_neg h, if_neg (fun hn => h hn.symm)]
  | cons p rest ih =>
    obtain ⟨k1, v1⟩ := p
    simp only [objSet]
    by_cases hk : k1 = k
    · subst hk
      simp only [if_pos rfl, objLookup]
      by_cases hn : k1 = n
      · rw [if_pos hn, if_pos hn.symm]
      · rw [if_neg hn, if_neg (fun h => hn h.symm), if_neg hn]
    · simp only [if_neg hk, objLookup, ih]
      split_ifs with h1 h2 <;> try rfl
      exact absurd (h1.trans h2) hk

theorem objLookup_foldl_objSet (l : List Control) (m : Obj) (n : String) :
    objLookup (l.foldl (fun value c => objSet value c.name c.value) m) n =
      ((l.reverse.find? (fun c => c.name == n)).map Control.value).or (objLookup m n) := by
  induction l generalizing m with
  | nil => simp
  | cons c rest ih =>
    rw [List.foldl_cons, ih, List.reverse_cons, List.find?_append, objLookup_objSet]
    cases hfind : rest.reverse.find? (fun c => c.name == n) with
    | some c' => simp [Option.or]
    | none =>
      by_cases h : c.name = n
      · have hb : (c.name == n) = true := by simp [h]
        simp [Option.or, List.find?, hb, h]
      · have hb : (c.name == n) = false := by simp [h]
        rw [if_neg (fun hh => h hh.symm)]
        simp [Option.or, List.find?, hb]

/-! ### Lemmas about the accessors and aggregation loops -/

theorem ControlCollection.isValidAux_eq (l : List Control) (b : Bool) :
    ControlCollection.isValidAux l b = (b && l.all (fun c => c.valid)) := by
  induction l generalizing b with
  | nil => simp [ControlCollection.isValidAux]
  | cons c rest ih => simp [ControlCollection.isValidAux, ih, List.all_cons, Bool.and_assoc]

theorem ControlCollection.namedAux_eq_find? (l : List Control) (n : String) :
    ControlCollection.namedAux l n = l.find? (fun c => c.name == n) := by
  induction l with
  | nil => simp [ControlCollection.namedAux]
  | cons c rest ih =>
    by_cases h : c.name = n
    · rw [ControlCollection.namedAux, if_pos h, List.find?_cons_of_pos _ (by simp [h])]
    · rw [ControlCollection.namedAux, if_neg h, List.find?_cons_of_neg _ (by simp [h]), ih]

theorem ControlCollection.setValueAux_fst (l : List Control) (m : Obj) :
    (ControlCollection.setValueAux l m).1 =
      l.map (fun c =>
        match objLookup m c.name with
        | some v => { c with value := v }
        | none => c) := by
  induction l with
  | nil => rfl
  | cons c rest ih =>
    simp only [ControlCollection.setValueAux, List.map_cons]
    cases objLookup m c.name <;> simp [ih]

theorem ControlCollection.setValueAux_snd (l : List Control) (m : Obj) :
    (ControlCollection.setValueAux l m).2 =
      l.filterMap (fun c => (objLookup m c.name).map (fun v => (c, v))) := by
  induction l with
  | nil => rfl
  | cons c rest ih =>
    simp only [ControlCollection.setValueAux, List.filterMap_cons]
    cases objLookup m c.name <;> simp [ih]

theorem ControlCollection.setValueAux_congr (l : List Control) (m m' : Obj)
    (h : ∀ c ∈ l, objLookup m c.name = objLookup m' c.name) :
    ControlCollection.setValueAux l m = ControlCollection.setValueAux l m' := by
  induction l with
  | nil => rfl
  | cons c rest ih =>
    have hc := h c (List.mem_cons_self c rest)
    have hrest := ih (fun x hx => h x (List.mem_cons_of_mem c hx))
    simp only [ControlCollection.setValueAux, hc, hrest]

/-! ### Lemmas about removal and the operation sequences -/

theorem removeFirstById_of_absent (l : List Control) (c : Control)
    (h : ∀ x ∈ l, controlEq x c = false) : removeFirstById l c = l := by
  induction l with
  | nil => rfl
  | cons x rest ih =>
    rw [removeFirstById, if_neg (by simp [h x (List.mem_cons_self x rest)]),
      ih (fun y hy => h y (List.mem_cons_of_mem x hy))]

theorem eraseIdx_eq_removeFirstById (l : List Control) (c : Control) (i : Nat)
    (h : l.findIdx? (fun x => controlEq x c) = some i) :
    l.eraseIdx i = removeFirstById l c := by
  induction l generalizing i with
  | nil => simp [List.findIdx?] at h
  | cons x rest ih =>
    rw [List.findIdx?_cons] at h
    by_cases hx : controlEq x c = true
    · rw [if_pos hx] at h
      obtain rfl : i = 0 := by simpa using h.symm
      rw [List.eraseIdx_cons_zero, removeFirstById, if_pos hx]
    · rw [if_neg hx, List.findIdx?_succ] at h
      cases hrest : rest.findIdx? (fun x => controlEq x c) with
      | none => rw [hrest] at h; simp at h
      | some j =>
        rw [hrest] at h
        obtain rfl : i = j + 1 := by simpa using h.symm
        rw [List.eraseIdx_cons_succ, removeFirstById,
          if_neg (by simp [hx]), ih j hrest]

theorem ControlCollection.remove_eq (coll : ControlCollection) (c : Control) :
    coll.remove c = { coll with controls := removeFirstById coll.controls c } := by
  unfold ControlCollection.remove ControlCollection.indexOf
  cases h : coll.controls.findIdx? (fun x => controlEq x c) with
  | none =>
    have habs : removeFirstById coll.controls c = coll.controls :=
      removeFirstById_of_absent _ _ (List.findIdx?_eq_none_iff.mp h)
    simp [habs]
  | some i =>
    have hi : (((i : Int)) != -1) = true := by simp
    simp only [hi, if_pos]
    rw [Int.toNat_natCast, eraseIdx_eq_removeFirstById coll.controls c i h]

theorem ControlCollection.contains_false_findIdx? (coll : ControlCollection) (c : Control)
    (h : coll.contains c = false) :
    coll.controls.findIdx? (fun x => controlEq x c) = none := by
  unfold ControlCollection.contains ControlCollection.indexOf at h
  cases hf : coll.controls.findIdx? (fun x => controlEq x c) with
  | none => rfl
  | some i => rw [hf] at h; simp at h

theorem ControlCollection.remove_absent (coll : ControlCollection) (c : Control)
    (h : coll.contains c = false) : coll.remove c = coll := by
  unfold ControlCollection.remove ControlCollection.indexOf
  rw [ControlCollection.contains_false_findIdx? coll c h]
  simp

theorem foldl_applyOp_controls (ops : List Op) (coll : ControlCollection) :
    (ops.foldl applyOp coll).controls = ops.foldl specStep coll.controls := by
  induction ops generalizing coll with
  | nil => rfl
  | cons op rest ih =>
    rw [List.foldl_cons, List.foldl_cons, ih]
    cases op with
    | append c => rfl
    | prepend c => rfl
    | remove c =>
      show (rest.foldl specStep (coll.remove c).controls) = _
      rw [ControlCollection.remove_eq]
      rfl

/-! ### Lemmas about the gather barrier -/

theorem perm_all_eq (l₁ l₂ : List Control) (p : Control → Bool) (h : l₁.Perm l₂) :
    l₁.all p = l₂.all p := by
  rw [Bool.eq_iff_iff, List.all_eq_true, List.all_eq_true]
  constructor
  · intro ha x hx
    exact ha x (h.mem_iff.mpr hx)
  · intro ha x hx
    exact ha x (h.mem_iff.mp hx)

theorem foldl_gatherStep_spec (arrivals : List Control) (s : GatherState)
    (hp : s.pending = arrivals.length) (hne : arrivals ≠ []) :
    arrivals.foldl gatherStep s =
      { pending := 0,
        accValid := s.accValid && arrivals.all (fun c => c.valid),
        accValue := arrivals.foldl (fun m c => objSet m c.name c.value) s.accValue,
        trace := s.trace ++
          [BarrierAction.setValid (s.accValid && arrivals.all (fun c => c.valid)),
           BarrierAction.emit (s.accValid && arrivals.all (fun c => c.valid))
             (arrivals.foldl (fun m c => objSet m c.name c.value) s.accValue)] } := by
  induction arrivals generalizing s with
  | nil => exact absurd rfl hne
  | cons c rest ih =>
    rw [List.foldl_cons]
    by_cases hrest : rest = []
    · subst hrest
      have h0 : s.pending - 1 = 0 := by rw [hp]; rfl
      simp [gatherStep, fireIfDone, h0, List.all_cons]
    · have hlen : rest.length ≠ 0 := fun h => hrest (List.length_eq_zero.mp h)
      have h1 : s.pending - 1 = rest.length := by
        rw [hp, List.length_cons]
        omega
      have hstep : gatherStep s c =
          { pending := rest.length,
            accValid := s.accValid && c.valid,
            accValue := objSet s.accValue c.name c.value,
            trace := s.trace } := by
        simp only [gatherStep, fireIfDone, h1]
        rw [if_neg hlen]
      rw [hstep, ih _ rfl hrest]
      simp [List.all_cons, Bool.and_assoc]

/-! ### Claims -/

/-- Claim C6: `isValid()` returns the logical AND of `isValid()` over all
member controls — a pure read of each control's last computed validity,
triggering no fresh validation — and in particular returns `true` for
the empty collection (vacuous AND). -/
theorem claim6_isValid_and (coll : ControlCollection) :
    coll.isValid = coll.controls.all (fun c => c.valid) ∧
    (coll.controls = [] → coll.isValid = true) := by
  have hmain : coll.isValid = coll.controls.all (fun c => c.valid) := by
    rw [ControlCollection.isValid, ControlCollection.isValidAux_eq, Bool.true_and]
  refine ⟨hmain, fun h => ?_⟩
  rw [hmain, h]
  rfl

/-- Witness for C6: a concrete two-control collection and the empty
collection. -/
theorem claim6_isValid_and_witness :
    ({ name := "f",
       controls := [⟨0, "a", 1, true⟩, ⟨1, "b", 2, false⟩],
       subscriptions := [] } : ControlCollection).isValid =
      ([⟨0, "a", 1, true⟩, ⟨1, "b", 2, false⟩] : List Control).all (fun c => c.valid) ∧
    (ControlCollection.make none).isValid = true :=
  ⟨(claim6_isValid_and _).1, (claim6_isValid_and (ControlCollection.make none)).2 rfl⟩

/-- Claim C7: `named(name)` returns the first control in collection order
whose `getName()` equals the name and `none` (never a thrown failure)
when no control matches; `at(i)`, `first()` and `last()` return the
not-found sentinel when the index is out of range or the collection is
empty. -/
theorem claim7_named_at_sentinels (coll : ControlCollection) (n : String) (i : Int) :
    coll.named n = coll.controls.find? (fun c => c.name == n) ∧
    ((∀ c ∈ coll.controls, c.name ≠ n) → coll.named n = none) ∧
    ((i < 0 ∨ (coll.count : Int) ≤ i) → coll.atIdx i = none) ∧
    (coll.controls = [] → coll.first = none ∧ coll.last = none) := by
  have hnamed : coll.named n = coll.controls.find? (fun c => c.name == n) :=
    ControlCollection.namedAux_eq_find? coll.controls n
  refine ⟨hnamed, fun h => ?_, fun h => ?_, fun h => ?_⟩
  · rw [hnamed, List.find?_eq_none]
    intro x hx
    simp [h x hx]
  · rw [ControlCollection.atIdx]
    rcases h with h | h
    · rw [if_pos h]
    · by_cases h0 : i < 0
      · rw [if_pos h0]
      · rw [if_neg h0, List.get?_eq_none]
        rw [ControlCollection.count] at h
        omega
  · rw [ControlCollection.first, ControlCollection.last, h]
    exact ⟨rfl, rfl⟩

/-- Witness for C7: a concrete collection with no control named `x`, an
out-of-range index, and the empty collection. -/
theorem claim7_named_at_sentinels_witness :
    ({ name := "f",
       controls := [⟨0, "a", 1, true⟩],
       subscriptions := [] } : ControlCollection).named "x" = none ∧
    ({ name := "f",
       controls := [⟨0, "a", 1, true⟩],
       subscriptions := [] } : ControlCollection).atIdx 5 = none ∧
    ((ControlCollection.make none).first = none ∧ (ControlCollection.make none).last = none) :=
  ⟨(claim7_named_at_sentinels _ "x" 0).2.1 (by decide),
   (claim7_named_at_sentinels _ "x" 5).2.2.1 (by decide),
   (claim7_named_at_sentinels (ControlCollection.make none) "x" 0).2.2.2 rfl⟩

/-- Claim C4: `getValue()` is the mapping from each member control's
`getName()` to its `getValue()`, built in collection order; under a
shared name the later control in iteration order wins, so a lookup
returns the value of the last control bearing that name, and every
member's name is present. -/
theorem claim4_getValue (coll : ControlCollection) (n : String) :
    objLookup coll.getValue n =
      (coll.controls.reverse.find? (fun c => c.name == n)).map Control.value ∧
    (∀ c ∈ coll.controls, (objLookup coll.getValue c.name).isSome = true) := by
  have hmain : ∀ m : String,
      objLookup coll.getValue m =
        (coll.controls.reverse.find? (fun c => c.name == m)).map Control.value := by
    intro m
    rw [ControlCollection.getValue, objLookup_foldl_objSet]
    rw [show objLookup [] m = none from rfl, Option.or_none]
  refine ⟨hmain n, fun c hc => ?_⟩
  rw [hmain c.name]
  cases hf : coll.controls.reverse.find? (fun x => x.name == c.name) with
  | none =>
    exfalso
    rw [List.find?_eq_none] at hf
    exact hf c (List.mem_reverse.mpr hc) (by simp)
  | some x => rfl

/-- Witness for C4: the spec scenario with controls named `a` (value 1)
and `b` (value 2). -/
theorem claim4_getValue_witness :
    objLookup ({ name := "f",
                 controls := [⟨0, "a", 1, true⟩, ⟨1, "b", 2, true⟩],
                 subscriptions := [] } : ControlCollection).getValue "a" =
      (([⟨0, "a", 1, true⟩, ⟨1, "b", 2, true⟩] : List Control).reverse.find?
          (fun c => c.name == "a")).map Control.value ∧
    (objLookup ({ name := "f",
                  controls := [⟨0, "a", 1, true⟩, ⟨1, "b", 2, true⟩],
                  subscriptions := [] } : ControlCollection).getValue "b").isSome = true :=
  ⟨(claim4_getValue _ "a").1,
   (claim4_getValue _ "b").2 ⟨1, "b", 2, true⟩ (by decide)⟩

/-- Claim C5: `setValue(m)` calls `setValue` on exactly those member
controls whose name is a key of `m`, in collection order, passing the
entry of `m` for that name; every other control is left untouched; and
the result depends on `m` only through its entries at the member
controls' names, so keys matching no control name have no effect. -/
theorem claim5_setValue (coll : ControlCollection) (m : Obj) :
    coll.setValueCalls m =
      coll.controls.filterMap (fun c => (objLookup m c.name).map (fun v => (c, v))) ∧
    (coll.setValue m).controls =
      coll.controls.map (fun c =>
        match objLookup m c.name with
        | some v => { c with value := v }
        | none => c) ∧
    (coll.setValue m).name = coll.name ∧
    (coll.setValue m).subscriptions = coll.subscriptions ∧
    (∀ m' : Obj, (∀ c ∈ coll.controls, objLookup m c.name = objLookup m' c.name) →
      coll.setValue m = coll.setValue m' ∧ coll.setValueCalls m = coll.setValueCalls m') := by
  refine ⟨ControlCollection.setValueAux_snd coll.controls m,
    ControlCollection.setValueAux_fst coll.controls m, rfl, rfl, fun m' h => ?_⟩
  have hcongr := ControlCollection.setValueAux_congr coll.controls m m' h
  constructor
  · show ({ coll with controls := (ControlCollection.setValueAux coll.controls m).1 } :
        ControlCollection) = { coll with controls := (ControlCollection.setValueAux coll.controls m').1 }
    rw [hcongr]
  · show (ControlCollection.setValueAux coll.controls m).2 =
      (ControlCollection.setValueAux coll.controls m').2
    rw [hcongr]

/-- Witness for C5: the spec scenario — controls `a` (value 1) and `b`
(value 2); `setValue` with entries for `b` and for the absent name `c`
updates only `b`, and dropping the unmatched key `c` changes nothing. -/
theorem claim5_setValue_witness :
    ({ name := "f",
       controls := [⟨0, "a", 1, true⟩, ⟨1, "b", 2, true⟩],
       subscriptions := [] } : ControlCollection).setValue [("b", 5), ("c", 9)] =
      ({ name := "f",
         controls := [⟨0, "a", 1, true⟩, ⟨1, "b", 2, true⟩],
         subscriptions := [] } : ControlCollection).setValue [("b", 5)] ∧
    ({ name := "f",
       controls := [⟨0, "a", 1, true⟩, ⟨1, "b", 2, true⟩],
       subscriptions := [] } : ControlCollection).setValueCalls [("b", 5), ("c", 9)] =
      [(⟨1, "b", 2, true⟩, 5)] :=
  ⟨((claim5_setValue _ [("b", 5), ("c", 9)]).2.2.2.2 [("b", 5)] (by decide)).1,
   ((claim5_setValue _ [("b", 5), ("c", 9)]).1).trans (by decide)⟩

/-- Claim C10: `focus()` is a runtime failure exactly when the collection
is empty — it unconditionally calls `focus()` on `first()`, which is the
absent sentinel then — and on a non-empty collection it invokes
`focus()` on the first control and returns the collection. -/
theorem claim10_focus (coll : ControlCollection) :
    (coll.focus = none ↔ coll.controls = []) ∧
    (∀ c, coll.first = some c → coll.focus = some (c, coll)) := by
  have h1 : coll.focus = none ↔ coll.first = none := by
    rw [ControlCollection.focus, Option.map_eq_none']
  have h2 : coll.first = none ↔ coll.controls = [] := by
    rw [ControlCollection.first, List.get?_eq_none, Nat.le_zero, List.length_eq_zero]
  refine ⟨h1.trans h2, fun c hc => ?_⟩
  rw [ControlCollection.focus, hc]
  rfl

/-- Witness for C10: the empty collection faults; a one-control
collection focuses its first control. -/
theorem claim10_focus_witness :
    (ControlCollection.make none).focus = none ∧
    ({ name := "f", controls := [⟨0, "a", 1, true⟩], subscriptions := [] } :
        ControlCollection).focus =
      some (⟨0, "a", 1, true⟩,
        { name := "f", controls := [⟨0, "a", 1, true⟩], subscriptions := [] }) :=
  ⟨(claim10_focus (ControlCollection.make none)).1.mpr rfl,
   (claim10_focus _).2 ⟨0, "a", 1, true⟩ rfl⟩

/-- Claim C3: for every sequence of `append`/`prepend`/`remove`
operations from the empty collection, `count()` is the number of
controls tracked and `at(i)` for `0 <= i < count()` returns the controls
in the order the operations imply (append at tail, prepend at head,
remove erases the first occurrence by identity); removing an absent
control leaves the collection unchanged and returns it. -/
theorem claim3_list_ops (ops : List Op) :
    (ops.foldl applyOp (ControlCollection.make none)).controls = ops.foldl specStep [] ∧
    (ops.foldl applyOp (ControlCollection.make none)).count =
      (ops.foldl specStep []).length ∧
    (∀ i : Nat, i < (ops.foldl applyOp (ControlCollection.make none)).count →
      (ops.foldl applyOp (ControlCollection.make none)).atIdx (i : Int) =
        (ops.foldl specStep []).get? i) ∧
    (∀ (coll : ControlCollection) (c : Control),
      (coll.remove c).controls = removeFirstById coll.controls c) ∧
    (∀ (coll : ControlCollection) (c : Control),
      coll.contains c = false → coll.remove c = coll) := by
  have hctrl := foldl_applyOp_controls ops (ControlCollection.make none)
  rw [show (ControlCollection.make none).controls = [] from rfl] at hctrl
  refine ⟨hctrl, ?_, fun i hi => ?_, fun coll c => ?_, fun coll c h => ?_⟩
  · rw [ControlCollection.count, hctrl]
  · rw [ControlCollection.atIdx, if_neg (not_lt.mpr (Int.natCast_nonneg i)),
      Int.toNat_natCast, hctrl]
  · rw [ControlCollection.remove_eq]
  · exact ControlCollection.remove_absent coll c h

/-- Witness for C3: the sequence append `a`, append `b`, prepend `p`,
remove `a`, probed at index 0, plus an absent-removal no-op. -/
theorem claim3_list_ops_witness :
    ([Op.append ⟨0, "a", 1, true⟩, Op.append ⟨1, "b", 2, true⟩,
        Op.prepend ⟨2, "p", 3, true⟩, Op.remove ⟨0, "a", 1, true⟩].foldl applyOp
        (ControlCollection.make none)).atIdx (0 : Nat) =
      ([Op.append ⟨0, "a", 1, true⟩, Op.append ⟨1, "b", 2, true⟩,
        Op.prepend ⟨2, "p", 3, true⟩, Op.remove ⟨0, "a", 1, true⟩].foldl specStep []).get? 0 ∧
    ({ name := "f", controls := [⟨0, "a", 1, true⟩], subscriptions := [] } :
        ControlCollection).remove ⟨9, "z", 0, true⟩ =
      { name := "f", controls := [⟨0, "a", 1, true⟩], subscriptions := [] } :=
  ⟨(claim3_list_ops _).2.2.1 0 (by decide),
   (claim3_list_ops []).2.2.2.2 _ ⟨9, "z", 0, true⟩ (by decide)⟩

/-- The scatter loop visits the controls in collection order. -/
theorem scatterLoop_eq_map (l : List Control) :
    scatterLoop l = l.map ValidateAction.dispatch := by
  induction l with
  | nil => rfl
  | cons c rest ih => rw [scatterLoop, List.map_cons, ih]

/-- Claim C8: `validate()` registers the gather listener before the first
dispatch, then invokes `validate()` on every member control in
collection order with no completion handling between dispatches, and
returns the collection itself — the aggregate result is never in the
return value. -/
theorem claim8_validate_scatter (coll : ControlCollection) :
    (coll.validate).1 =
      ValidateAction.registerGather :: coll.controls.map ValidateAction.dispatch ∧
    (coll.validate).2 = coll := by
  refine ⟨?_, rfl⟩
  show ValidateAction.registerGather :: scatterLoop coll.controls = _
  rw [scatterLoop_eq_map]

/-- Claim C9: after `append(c)` or `prepend(c)`, an event of type `t`
emitted by `c` is re-emitted by the collection as `control:` ++ `t` with
`c` prepended to the original arguments — exactly one new proxied
re-emission beyond whatever subscriptions already existed. -/
theorem claim9_event_forwarding (coll : ControlCollection) (c : Control) (t : String)
    (args : List EvArg) :
    (coll.append c).emitFromControl c t args =
      coll.emitFromControl c t args ++
        [{ type := "control:" ++ t, arguments := EvArg.ctrl c :: args }] ∧
    (coll.prepend c).emitFromControl c t args =
      coll.emitFromControl c t args ++
        [{ type := "control:" ++ t, arguments := EvArg.ctrl c :: args }] := by
  have hc : controlEq c c = true := by simp [controlEq]
  constructor <;>
    simp [ControlCollection.emitFromControl, ControlCollection.append,
      ControlCollection.prepend, List.filterMap_append, hc, proxyEvent]

/-- Claim C2: for the empty collection, the barrier fires at gather
registration itself — synchronously inside `validate()`, before any
per-control completion could arrive — setting the cached valid flag to
`true` and emitting the `validate` signal with `(true, {})`. -/
theorem claim2_empty_validate (coll : ControlCollection) (h : coll.controls = []) :
    gatherInit coll.controls =
      { pending := 0, accValid := true, accValue := [],
        trace := [BarrierAction.setValid true, BarrierAction.emit true []] } ∧
    gatherRun coll.controls [] =
      { pending := 0, accValid := true, accValue := [],
        trace := [BarrierAction.setValid true, BarrierAction.emit true []] } := by
  rw [h]
  exact ⟨rfl, rfl⟩

/-- Witness for C2: a freshly constructed collection. -/
theorem claim2_empty_validate_witness :
    gatherInit (ControlCollection.make none).controls =
      { pending := 0, accValid := true, accValue := [],
        trace := [BarrierAction.setValid true, BarrierAction.emit true []] } :=
  (claim2_empty_validate (ControlCollection.make none) rfl).1

/-- Claim C1: once a `validate` completion has been observed from each of
the N controls, in any arrival order, the trace of barrier effects is
exactly one `setValid` followed by exactly one emitted `validate`
signal, both carrying the AND of the per-control validity booleans; the
emitted map sends each control's name to the value that control
reported, and contains no other names. -/
theorem claim1_validate_barrier (controls arrivals : List Control)
    (hperm : arrivals.Perm controls)
    (hnodup : (controls.map Control.name).Nodup) :
    (gatherRun controls arrivals).trace =
      [BarrierAction.setValid (controls.all (fun c => c.valid)),
       BarrierAction.emit (controls.all (fun c => c.valid))
         (gatherRun controls arrivals).accValue] ∧
    (∀ c ∈ controls,
      objLookup (gatherRun controls arrivals).accValue c.name = some c.value) ∧
    (∀ n : String, n ∉ controls.map Control.name →
      objLookup (gatherRun controls arrivals).accValue n = none) := by
  by_cases hemp : controls = []
  · subst hemp
    have ha : arrivals = [] := List.length_eq_zero.mp (by simpa using hperm.length_eq)
    subst ha
    refine ⟨rfl, ?_, ?_⟩
    · intro c hc
      exact absurd hc (List.not_mem_nil c)
    · intro n _
      rfl
  · have hane : arrivals ≠ [] := by
      intro h
      subst h
      exact hemp (List.length_eq_zero.mp (by simpa using hperm.length_eq.symm))
    have hlen : controls.length ≠ 0 := fun h => hemp (List.length_eq_zero.mp h)
    have hinit : gatherInit controls =
        { pending := controls.length, accValid := true, accValue := [], trace := [] } := by
      simp only [gatherInit, fireIfDone]
      rw [if_neg hlen]
    have hrun := foldl_gatherStep_spec arrivals
      { pending := controls.length, accValid := true, accValue := [], trace := [] }
      hperm.length_eq.symm hane
    have hall : arrivals.all (fun c => c.valid) = controls.all (fun c => c.valid) :=
      perm_all_eq arrivals controls _ hperm
    unfold gatherRun
    rw [hinit, hrun]
    simp only [Bool.true_and, hall, List.nil_append]
    refine ⟨by trivial, ?_, ?_⟩
    · intro c hc
      rw [objLookup_foldl_objSet]
      cases hf : arrivals.reverse.find? (fun x => x.name == c.name) with
      | none =>
        exfalso
        rw [List.find?_eq_none] at hf
        exact hf c (List.mem_reverse.mpr (hperm.mem_iff.mpr hc)) (by simp)
      | some x =>
        have hx1 : x ∈ arrivals := List.mem_reverse.mp (List.mem_of_find?_eq_some hf)
        have hx2 : x.name = c.name := by simpa using List.find?_some hf
        have hnd : (arrivals.map Control.name).Nodup :=
          ((hperm.map Control.name).nodup_iff).mpr hnodup
        have hxc : x = c :=
          List.inj_on_of_nodup_map hnd hx1 (hperm.mem_iff.mpr hc) hx2
        subst hxc
        simp [Option.or]
    · intro n hn
      rw [objLookup_foldl_objSet]
      cases hf : arrivals.reverse.find? (fun x => x.name == n) with
      | none => rfl
      | some x =>
        exfalso
        have hx1 : x ∈ arrivals := List.mem_reverse.mp (List.mem_of_find?_eq_some hf)
        have hx2 : x.name = n := by simpa using List.find?_some hf
        exact hn (hx2 ▸ List.mem_map_of_mem Control.name (hperm.mem_iff.mp hx1))

/-- Witness for C1: the spec scenario — `controlA` reports valid with
value 10, `controlB` reports invalid with value 20, and `controlB`'s
completion arrives first. -/
theorem claim1_validate_barrier_witness :
    ([⟨1, "controlB", 20, false⟩, ⟨0, "controlA", 10, true⟩] : List Control).Perm
      [⟨0, "controlA", 10, true⟩, ⟨1, "controlB", 20, false⟩] ∧
    (([⟨0, "controlA", 10, true⟩, ⟨1, "controlB", 20, false⟩] : List Control).map
        Control.name).Nodup ∧
    ((gatherRun [⟨0, "controlA", 10, true⟩, ⟨1, "controlB", 20, false⟩]
          [⟨1, "controlB", 20, false⟩, ⟨0, "controlA", 10, true⟩]).trace =
        [BarrierAction.setValid
            (([⟨0, "controlA", 10, true⟩, ⟨1, "controlB", 20, false⟩] : List Control).all
              (fun c => c.valid)),
         BarrierAction.emit
            (([⟨0, "controlA", 10, true⟩, ⟨1, "controlB", 20, false⟩] : List Control).all
              (fun c => c.valid))
            (gatherRun [⟨0, "controlA", 10, true⟩, ⟨1, "controlB", 20, false⟩]
              [⟨1, "controlB", 20, false⟩, ⟨0, "controlA", 10, true⟩]).accValue] ∧
      (∀ c ∈ ([⟨0, "controlA", 10, true⟩, ⟨1, "controlB", 20, false⟩] : List Control),
        objLookup
            (gatherRun [⟨0, "controlA", 10, true⟩, ⟨1, "controlB", 20, false⟩]
              [⟨1, "controlB", 20, false⟩, ⟨0, "controlA", 10, true⟩]).accValue c.name =
          some c.value) ∧
      (∀ n : String,
        n ∉ ([⟨0, "controlA", 10, true⟩, ⟨1, "controlB", 20, false⟩] : List Control).map
              Control.name →
          objLookup
              (gatherRun [⟨0, "controlA", 10, true⟩, ⟨1, "controlB", 20, false⟩]
                [⟨1, "controlB", 20, false⟩, ⟨0, "controlA", 10, true⟩]).accValue n =
            none)) :=
  ⟨by decide, by decide,
   claim1_validate_barrier
     [⟨0, "controlA", 10, true⟩, ⟨1, "controlB", 20, false⟩]
     [⟨1, "controlB", 20, false⟩, ⟨0, "controlA", 10, true⟩]
     (by decide) (by decide)⟩
